import Mathlib

/-!
Shallow embedding of the local entry store and weekly-window query of the
journaling client (src/client/src/services/stt.js,
src/client/src/pages/reportPage.jsx, src/client/src/pages/entryPage.jsx,
src/unnamed/part_000).

Browser localStorage holds strings; here a stored string is modelled by its
JSON.parse outcome, using that JSON.parse is a left inverse of JSON.stringify
on arrays of plain entry records:
  * `RawVal.arrOf es`      — text that parses to an array of entry records
                             (JSON.stringify of such an array maps here);
  * `RawVal.nonArrayJSON`  — valid JSON whose value is not an array;
  * `RawVal.invalid`       — non-empty text on which JSON.parse throws;
  * `RawVal.emptyStr`      — the empty string (falsy in JS, and not valid JSON).
A missing key is `none`. Machine timestamps are `Int` milliseconds (the repo
always stores `Date.now()` results, which are integral). Functions that can
throw in JS (no try/catch around JSON.parse / .filter) return `Except`;
functions whose source catches everything return plain values.
-/

namespace Untitled

structure JournalEntry where
  prompt : String
  response : String
  timestamp : Int
  deriving DecidableEq, Repr

inductive RawVal where
  | emptyStr
  | invalid
  | nonArrayJSON
  | arrOf (es : List JournalEntry)
  deriving DecidableEq, Repr

/-- localStorage: a map from key strings to optionally-present stored values. -/
def Storage : Type := String → Option RawVal

/-- A storage holding exactly one key. -/
def mkStore (k : String) (v : Option RawVal) : Storage :=
  fun q => if q = k then v else none

/-- src/client/src/services/stt.js: `const KEY = "entries_v1";` -/
def KEY : String := "entries_v1"

/-- src/client/src/pages/reportPage.jsx: `const STORAGE_KEY = 'journal_entries';` -/
def STORAGE_KEY : String := "journal_entries"

/-- src/client/src/services/stt.js `loadEntries`:
`raw ? JSON.parse(raw) : []`, `Array.isArray(parsed) ? parsed : []`, with a
surrounding try/catch returning `[]`. The catch branch is the `invalid` case;
`null` (missing) and `""` are falsy, so the parse is skipped there. -/
def loadEntries (st : Storage) : List JournalEntry :=
  match st KEY with
  | none => []
  | some .emptyStr => []
  | some .invalid => []
  | some .nonArrayJSON => []
  | some (.arrOf es) => es

/-- src/client/src/services/stt.js `saveEntry`: reads via `loadEntries`,
pushes the entry, writes `JSON.stringify(entries)` back under `KEY`. -/
def saveEntry (st : Storage) (entry : JournalEntry) : Storage :=
  fun k => if k = KEY then some (.arrOf (loadEntries st ++ [entry])) else st k

/-- The JS `Number(..)` coercion as applied in `getLast7DaysEntries`.
On a value that is already a number it is the identity; timestamps are
`Int` here, so it is the identity function. -/
def Number (x : Int) : Int := x

/-- `7 * 24 * 60 * 60 * 1000` as in both window queries. -/
def windowMs : Int := 7 * 24 * 60 * 60 * 1000

/-- Filter predicate of stt.js `getLast7DaysEntries`:
`(e) => Number(e.timestamp) >= cutoff`. -/
def last7Pred (now : Int) (e : JournalEntry) : Bool :=
  decide (Number e.timestamp ≥ now - windowMs)

/-- src/client/src/services/stt.js `getLast7DaysEntries`, with `Date.now()`
passed explicitly as `now`. -/
def getLast7DaysEntries (st : Storage) (now : Int) : List JournalEntry :=
  (loadEntries st).filter (last7Pred now)

/-- Filter predicate of reportPage.jsx `getWeekEntries`:
`e => e.timestamp >= weekAgo`. -/
def weekPred (now : Int) (e : JournalEntry) : Bool :=
  decide (e.timestamp ≥ now - windowMs)

/-- src/client/src/pages/reportPage.jsx `getWeekEntries` (identical in
src/unnamed/part_000), with `Date.now()` passed explicitly. There is no
try/catch: `JSON.parse` on non-JSON text throws a SyntaxError, and
`entries.filter` on a parsed non-array value throws a TypeError; both are
modelled as `Except.error`. `localStorage.getItem(STORAGE_KEY) || '[]'`
replaces `null` and `""` (both falsy) by `'[]'`. -/
def getWeekEntries (st : Storage) (now : Int) : Except String (List JournalEntry) :=
  match st STORAGE_KEY with
  | none => .ok (([] : List JournalEntry).filter (weekPred now))
  | some .emptyStr => .ok (([] : List JournalEntry).filter (weekPred now))
  | some .invalid => .error "SyntaxError: JSON.parse: unexpected input"
  | some .nonArrayJSON => .error "TypeError: entries.filter is not a function"
  | some (.arrOf es) => .ok (es.filter (weekPred now))

/-- JS `String.prototype.trim`: drop leading and trailing whitespace.
Modelled structurally over the character list (extensionally the same as
Lean's `String.trim`, which is defined by well-founded recursion). -/
def jsTrim (s : String) : String :=
  ⟨((s.data.dropWhile Char.isWhitespace).reverse.dropWhile Char.isWhitespace).reverse⟩

/-- src/client/src/pages/entryPage.jsx save button:
`disabled={isTranscribing || !response.trim()}`. A JS string is falsy exactly
when empty, so `!response.trim()` is `response.trim() === ""`. -/
def saveDisabled (isTranscribing : Bool) (response : String) : Bool :=
  isTranscribing || (jsTrim response == "")

/-- JS `Array.prototype.slice(start, stop)` for non-negative bounds. -/
def slice (xs : List α) (start stop : Nat) : List α :=
  (xs.drop start).take (stop - start)

/-- Theme bubbles rendered by the report view. reportPage.jsx:
`insights.themes && insights.themes.slice(0, 5).map(...)` — nothing is
rendered when `themes` is absent; src/unnamed/part_000:
`(insights.themes || []).slice(0, 5)` — absent themes become `[]`. Both
yield the first five elements (or `[]` when absent). -/
def renderedThemes (themes : Option (List String)) : List String :=
  match themes with
  | none => []
  | some ts => slice ts 0 5

/-- A stored value that is missing, the empty string, non-JSON text, or
JSON that is not an array — every case other than a well-formed array. -/
def Corrupt (v : Option RawVal) : Prop :=
  v = none ∨ v = some .emptyStr ∨ v = some .invalid ∨ v = some .nonArrayJSON

/-- A concrete entry used by witnesses. -/
def e0 : JournalEntry := ⟨"p", "r", 0⟩

lemma loadEntries_mkStore_arrOf (es : List JournalEntry) :
    loadEntries (mkStore KEY (some (.arrOf es))) = es := by
  simp [loadEntries, mkStore]

lemma loadEntries_corrupt (st : Storage) (h : Corrupt (st KEY)) :
    loadEntries st = [] := by
  rcases h with h | h | h | h <;> simp [loadEntries, h]

lemma filter_idem (p : α → Bool) (l : List α) :
    (l.filter p).filter p = l.filter p := by
  induction l with
  | nil => rfl
  | cons a l ih =>
    by_cases h : p a = true
    · simp [List.filter_cons, h, ih]
    · simp [List.filter_cons, h, ih]

lemma last7Pred_eq_weekPred (now : Int) : last7Pred now = weekPred now := by
  funext e
  simp [last7Pred, weekPred, Number]

/-- C1 counterexample: with non-JSON text stored under the report view's key,
`getWeekEntries` propagates the `JSON.parse` exception instead of returning
an empty sequence, refuting "every load ... never raises". -/
theorem getWeekEntries_raises_on_nonJSON :
    getWeekEntries (mkStore STORAGE_KEY (some .invalid)) 0 =
      Except.error "SyntaxError: JSON.parse: unexpected input" := rfl

/-- C1 (amended): on every corrupted or missing stored value, the store's
`loadEntries` (and hence `getLast7DaysEntries`) returns `[]` and never
raises, but the report view's `getWeekEntries` returns `[]` only when the
key is missing or holds the empty string; on non-JSON text and on JSON
non-array values it raises. -/
theorem loadEntries_corrupt_empty_getWeekEntries_partial
    (v : Option RawVal) (now : Int) (h : Corrupt v) :
    loadEntries (mkStore KEY v) = [] ∧
    getLast7DaysEntries (mkStore KEY v) now = [] ∧
    (getWeekEntries (mkStore STORAGE_KEY v) now = .ok [] ↔
      (v = none ∨ v = some .emptyStr)) := by
  have hv : Corrupt (mkStore KEY v KEY) := by
    simpa [mkStore] using h
  refine ⟨loadEntries_corrupt _ hv, ?_, ?_⟩
  · simp [getLast7DaysEntries, loadEntries_corrupt _ hv]
  · rcases h with h | h | h | h <;> subst h <;> simp [getWeekEntries, mkStore]

/-- Witness for C1's amended theorem at the concrete value `invalid`. -/
theorem loadEntries_corrupt_empty_witness :
    Corrupt (some .invalid) ∧
    (loadEntries (mkStore KEY (some .invalid)) = [] ∧
     getLast7DaysEntries (mkStore KEY (some .invalid)) 0 = [] ∧
     (getWeekEntries (mkStore STORAGE_KEY (some .invalid)) 0 = .ok [] ↔
       ((some RawVal.invalid : Option RawVal) = none ∨
        (some RawVal.invalid : Option RawVal) = some .emptyStr))) :=
  ⟨Or.inr (Or.inr (Or.inl rfl)),
   loadEntries_corrupt_empty_getWeekEntries_partial (some .invalid) 0
     (Or.inr (Or.inr (Or.inl rfl)))⟩

/-- C2: `saveEntry` writes under `KEY = "entries_v1"` while the report view
reads `STORAGE_KEY = "journal_entries"`, so appending any entry to any store
state leaves the report view's weekly query completely unchanged — the
appended entry is invisible to it. -/
theorem getWeekEntries_unchanged_by_saveEntry
    (st : Storage) (e : JournalEntry) (now : Int) :
    getWeekEntries (saveEntry st e) now = getWeekEntries st now := by
  have hk : saveEntry st e STORAGE_KEY = st STORAGE_KEY := by
    show (if STORAGE_KEY = KEY then some (.arrOf (loadEntries st ++ [e]))
          else st STORAGE_KEY) = st STORAGE_KEY
    exact if_neg (by decide)
  unfold getWeekEntries
  rw [hk]

/-- C3: with a well-formed array stored under the store's key, `saveEntry`
followed by `loadEntries` yields exactly the prior sequence with the new
entry appended at the end, order preserved; two consecutive `saveEntry`
calls grow the stored sequence length by exactly 2. -/
theorem saveEntry_then_loadEntries
    (st : Storage) (prior : List JournalEntry) (e e2 : JournalEntry)
    (h : st KEY = some (.arrOf prior)) :
    loadEntries (saveEntry st e) = prior ++ [e] ∧
    (loadEntries (saveEntry (saveEntry st e) e2)).length = prior.length + 2 := by
  have h1 : loadEntries st = prior := by simp [loadEntries, h]
  have h2 : loadEntries (saveEntry st e) = prior ++ [e] := by
    simp [loadEntries, saveEntry, h, h1]
  have h3 : loadEntries (saveEntry (saveEntry st e) e2) = (prior ++ [e]) ++ [e2] := by
    simp [loadEntries, saveEntry, h, h1]
  refine ⟨h2, ?_⟩
  rw [h3]
  simp

/-- Witness for C3 at the empty prior sequence. -/
theorem saveEntry_then_loadEntries_witness :
    mkStore KEY (some (.arrOf [])) KEY = some (.arrOf []) ∧
    (loadEntries (saveEntry (mkStore KEY (some (.arrOf []))) e0) = [] ++ [e0] ∧
     (loadEntries
        (saveEntry (saveEntry (mkStore KEY (some (.arrOf []))) e0) e0)).length =
       List.length ([] : List JournalEntry) + 2) :=
  ⟨by simp [mkStore],
   saveEntry_then_loadEntries (mkStore KEY (some (.arrOf []))) [] e0 e0
     (by simp [mkStore])⟩

/-- C4 counterexample: the 5-character response "short" (length < 10) is
submittable — the save button is enabled — refuting the claimed minimum
length of 10. -/
theorem short_response_submittable :
    saveDisabled false "short" = false ∧ ("short" : String).length < 10 := by
  constructor
  · decide
  · decide

/-- C4 (amended): submission is blocked exactly while a transcription is in
flight or when the response trims to the empty string; any response that is
non-blank after trimming is submittable regardless of length — there is no
minimum-length (10-character) validation in the entry view (whose save
action is itself a placeholder alert, not a store write). -/
theorem saveDisabled_eq_false_iff (t : Bool) (r : String) :
    saveDisabled t r = false ↔ (t = false ∧ jsTrim r ≠ "") := by
  simp [saveDisabled]

/-- Witness for C4's amended theorem at the concrete 2-character response. -/
theorem saveDisabled_eq_false_iff_witness :
    saveDisabled false "hi" = false ↔ (false = false ∧ jsTrim "hi" ≠ "") :=
  saveDisabled_eq_false_iff false "hi"

/-- One day in milliseconds, for the scenario timestamps. -/
def day : Int := 24 * 60 * 60 * 1000

/-- C5: the weekly window is inclusive at its lower end. For every `now`, an
entry stamped exactly `now - windowMs` is kept and an entry stamped
`now - windowMs - 1` is dropped, by both `getLast7DaysEntries` and the
report view's `getWeekEntries`. -/
theorem window_boundary_inclusive (now : Int) (p r p2 r2 : String) :
    getLast7DaysEntries
        (mkStore KEY (some (.arrOf
          [⟨p, r, now - windowMs⟩, ⟨p2, r2, now - windowMs - 1⟩]))) now
      = [⟨p, r, now - windowMs⟩] ∧
    getWeekEntries
        (mkStore STORAGE_KEY (some (.arrOf
          [⟨p, r, now - windowMs⟩, ⟨p2, r2, now - windowMs - 1⟩]))) now
      = .ok [⟨p, r, now - windowMs⟩] := by
  have hin : last7Pred now ⟨p, r, now - windowMs⟩ = true := by
    simp [last7Pred, Number]
  have hout : last7Pred now ⟨p2, r2, now - windowMs - 1⟩ = false := by
    simp only [last7Pred, Number, decide_eq_false_iff_not, ge_iff_le, not_le]
    omega
  have hin' : weekPred now ⟨p, r, now - windowMs⟩ = true := by
    rw [← last7Pred_eq_weekPred]; exact hin
  have hout' : weekPred now ⟨p2, r2, now - windowMs - 1⟩ = false := by
    rw [← last7Pred_eq_weekPred]; exact hout
  constructor
  · simp only [getLast7DaysEntries, loadEntries_mkStore_arrOf]
    simp [List.filter_cons, hin, hout]
  · simp only [getWeekEntries, mkStore, if_pos]
    simp [List.filter_cons, hin', hout']

/-- C6: the weekly window query returns exactly the entries whose timestamp
is at least `now - windowMs` (membership characterization), preserves the
input order (the result is a sublist of the input; the query is a pure
function, so the input is not mutated), imposes no upper bound (future-dated
entries are included), and on the scenario `now-1d, now-8d, now-3d` returns
exactly the first and third entries in insertion order. -/
theorem selectRecent_characterization (es : List JournalEntry) (now : Int)
    (p r : String) :
    (∀ e, e ∈ getLast7DaysEntries (mkStore KEY (some (.arrOf es))) now ↔
        e ∈ es ∧ e.timestamp ≥ now - windowMs) ∧
    (getLast7DaysEntries (mkStore KEY (some (.arrOf es))) now).Sublist es ∧
    (∀ e, e ∈ es → e.timestamp > now →
        e ∈ getLast7DaysEntries (mkStore KEY (some (.arrOf es))) now) ∧
    getLast7DaysEntries
        (mkStore KEY (some (.arrOf
          [⟨p, r, now - day⟩, ⟨p, r, now - 8 * day⟩, ⟨p, r, now - 3 * day⟩]))) now
      = [⟨p, r, now - day⟩, ⟨p, r, now - 3 * day⟩] := by
  refine ⟨?_, ?_, ?_, ?_⟩
  · intro e
    simp only [getLast7DaysEntries, loadEntries_mkStore_arrOf, List.mem_filter]
    simp [last7Pred, Number]
  · simp only [getLast7DaysEntries, loadEntries_mkStore_arrOf]
    exact List.filter_sublist es
  · intro e he hf
    simp only [getLast7DaysEntries, loadEntries_mkStore_arrOf, List.mem_filter]
    refine ⟨he, ?_⟩
    simp only [last7Pred, Number, decide_eq_true_eq, ge_iff_le, windowMs]
    omega
  · have h1 : last7Pred now ⟨p, r, now - day⟩ = true := by
      simp only [last7Pred, Number, decide_eq_true_eq, ge_iff_le, windowMs, day]
      omega
    have h2 : last7Pred now ⟨p, r, now - 8 * day⟩ = false := by
      simp only [last7Pred, Number, decide_eq_false_iff_not, ge_iff_le, not_le,
        windowMs, day]
      omega
    have h3 : last7Pred now ⟨p, r, now - 3 * day⟩ = true := by
      simp only [last7Pred, Number, decide_eq_true_eq, ge_iff_le, windowMs, day]
      omega
    simp only [getLast7DaysEntries, loadEntries_mkStore_arrOf]
    simp [List.filter_cons, h1, h2, h3]

/-- A concrete future-dated entry used by the C6 witness. -/
def efut : JournalEntry := ⟨"f", "g", 1⟩

/-- Witness for C6: a future-dated entry (timestamp 1 > now = 0) is included
by the window query. -/
theorem selectRecent_characterization_witness :
    efut ∈ getLast7DaysEntries (mkStore KEY (some (.arrOf [efut]))) 0 :=
  (selectRecent_characterization [efut] 0 "f" "g").2.2.1 efut (by simp)
    (by decide)

/-- C7: the window filter is idempotent — storing the filtered result and
filtering it again with the same `now` returns the same sequence. -/
theorem getLast7DaysEntries_idempotent (st : Storage) (now : Int) :
    getLast7DaysEntries
        (mkStore KEY (some (.arrOf (getLast7DaysEntries st now)))) now
      = getLast7DaysEntries st now := by
  simp only [getLast7DaysEntries, loadEntries_mkStore_arrOf]
  exact filter_idem _ _

/-- C8: when the stored value under the store's key is missing, the empty
string, non-JSON text, or JSON that is not an array, `saveEntry e` replaces
it with the array holding exactly `e` — the corrupted content is discarded,
and a subsequent `loadEntries` returns just `[e]`. -/
theorem saveEntry_replaces_corrupt (st : Storage) (e : JournalEntry)
    (h : Corrupt (st KEY)) :
    saveEntry st e KEY = some (.arrOf [e]) ∧
    loadEntries (saveEntry st e) = [e] := by
  have hl : loadEntries st = [] := loadEntries_corrupt st h
  constructor
  · show (if KEY = KEY then some (.arrOf (loadEntries st ++ [e])) else st KEY)
        = some (.arrOf [e])
    rw [if_pos rfl, hl]
    rfl
  · rcases h with h | h | h | h <;> simp [loadEntries, saveEntry, h]

/-- Witness for C8 at a missing key. -/
theorem saveEntry_replaces_corrupt_witness :
    Corrupt (mkStore KEY none KEY) ∧
    (saveEntry (mkStore KEY none) e0 KEY = some (.arrOf [e0]) ∧
     loadEntries (saveEntry (mkStore KEY none) e0) = [e0]) :=
  ⟨Or.inl (by simp [mkStore]),
   saveEntry_replaces_corrupt (mkStore KEY none) e0 (Or.inl (by simp [mkStore]))⟩

/-- C9: given the same stored array of entries (every timestamp an `Int`)
and the same `now`, the report view's `getWeekEntries` (predicate
`e.timestamp >= weekAgo`) selects exactly the entries that the store's
`getLast7DaysEntries` (predicate `Number(e.timestamp) >= cutoff`) selects:
`Number` is the identity on numbers. -/
theorem windowQueries_agree (es : List JournalEntry) (now : Int) :
    getWeekEntries (mkStore STORAGE_KEY (some (.arrOf es))) now
      = Except.ok (getLast7DaysEntries (mkStore KEY (some (.arrOf es))) now) := by
  simp only [getLast7DaysEntries, loadEntries_mkStore_arrOf]
  simp only [getWeekEntries, mkStore, if_pos]
  rw [last7Pred_eq_weekPred]

/-- C10: the report view renders the first five themes: the rendered list is
`take 5` of the returned themes, hence at most five bubbles, and it is an
initial segment of the themes array (prepending it to the rest restores the
array); absent themes render nothing. -/
theorem renderedThemes_first5 (ts : List String) :
    renderedThemes (some ts) = ts.take 5 ∧
    (renderedThemes (some ts)).length ≤ 5 ∧
    renderedThemes (some ts) ++ ts.drop 5 = ts ∧
    renderedThemes none = [] := by
  have h : renderedThemes (some ts) = ts.take 5 := by
    simp [renderedThemes, slice]
  refine ⟨h, ?_, ?_, rfl⟩
  · rw [h]
    exact List.length_take_le 5 ts
  · rw [h]
    exact List.take_append_drop 5 ts

end Untitled
